import Mathlib

/-!
Verification of the frame-telemetry core of `src/jsm/inspector/Inspector.js`
(the three.js Inspector).  Numbers that are JavaScript doubles in the source
are modelled as exact rationals (`ℚ`); the per-`cid` stats map
(`this.statsData`, a JS `Map`) is modelled as an association list, and the
in-place mutation of entry objects is modelled by explicit read/write of the
store at the entry's key (a fresh JS entry `{}` is modelled as the all-zero,
`initialized = false` record, whose fields are always written before they are
read).
-/

namespace Inspector

/-- A per-frame sample node (external input of the inspector):
`cid`, `cpu`, `gpu`, `children` as in the source's `stats` objects. -/
inductive SampleNode where
  | mk (cid : Nat) (cpu gpu : ℚ) (children : List SampleNode)

def SampleNode.cid : SampleNode → Nat
  | .mk c _ _ _ => c

def SampleNode.cpu : SampleNode → ℚ
  | .mk _ a _ _ => a

def SampleNode.gpu : SampleNode → ℚ
  | .mk _ _ g _ => g

def SampleNode.children : SampleNode → List SampleNode
  | .mk _ _ _ cs => cs

/-- The mutable record stored in `this.statsData` for one `cid`
(`Inspector.getStatsData`).  A fresh record `{}` is the default value. -/
structure StatsData where
  cpu : ℚ := 0
  gpu : ℚ := 0
  total : ℚ := 0
  initialized : Bool := false
deriving DecidableEq, Repr

/-- `this.statsData : Map cid -> StatsData`, as an association list. -/
abbrev Store := List (Nat × StatsData)

/-- Map lookup with get-or-create semantics of `getStatsData`: a missing key
behaves as the fresh record `{}`. -/
def getStats : Store → Nat → StatsData
  | [], _ => {}
  | (c, e) :: rest, cid => if c = cid then e else getStats rest cid

/-- Writing back a (mutated) entry object under its key. -/
def setStats : Store → Nat → StatsData → Store
  | [], cid, d => [(cid, d)]
  | (c, e) :: rest, cid, d =>
      if c = cid then (cid, d) :: rest else (c, e) :: setStats rest cid d

mutual

/-- `Inspector.resolveStats( stats )` (Inspector.js lines 223-256): look up the
entry for `stats.cid`; if not initialized, seed `cpu`/`gpu` and mark
initialized; unconditionally overwrite `cpu`/`gpu` with the node's own sample
and set `total = cpu + gpu`; then fold over the children in order. -/
def resolveStats (stats : SampleNode) (store : Store) : Store :=
  match stats with
  | .mk cid cpu gpu children =>
    let data0 := getStats store cid
    let data1 :=
      if data0.initialized ≠ true then
        { data0 with cpu := cpu, gpu := gpu, initialized := true }
      else data0
    let data2 := { data1 with cpu := cpu, gpu := gpu }
    let data3 := { data2 with total := data2.cpu + data2.gpu }
    resolveStatsChildren cid children (setStats store cid data3)

/-- The `for ( const child of stats.children )` loop of `resolveStats`: after
each recursive call, the parent entry is re-read from the store (in JS, `data`
aliases the map entry, so mutations by the recursion are visible) and the
child's entry is added into it. -/
def resolveStatsChildren (cid : Nat) (children : List SampleNode) (store : Store) : Store :=
  match children with
  | [] => store
  | child :: rest =>
      let store1 := resolveStats child store
      let childData := getStats store1 child.cid
      let data := getStats store1 cid
      let data' := { data with
        cpu := data.cpu + childData.cpu,
        gpu := data.gpu + childData.gpu,
        total := data.total + childData.total }
      resolveStatsChildren cid rest (setStats store1 cid data')

end

/-! ### Specification-side tree aggregates

`treeCpu`/`treeGpu` are the mathematical subtree sums of the raw samples; the
aggregation in `resolveStats` is compared against them. -/

mutual

/-- Sum of `cpu` over a node and all its descendants. -/
def treeCpu : SampleNode → ℚ
  | .mk _ a _ cs => a + treeCpuList cs

def treeCpuList : List SampleNode → ℚ
  | [] => 0
  | c :: rest => treeCpu c + treeCpuList rest

end

mutual

/-- Sum of `gpu` over a node and all its descendants. -/
def treeGpu : SampleNode → ℚ
  | .mk _ _ g cs => g + treeGpuList cs

def treeGpuList : List SampleNode → ℚ
  | [] => 0
  | c :: rest => treeGpu c + treeGpuList rest

end

/-- The expected aggregated total of a subtree. -/
def treeTotal (t : SampleNode) : ℚ := treeCpu t + treeGpu t

/-- Sum of `treeTotal` over a list of sibling subtrees. -/
def treeTotalList (cs : List SampleNode) : ℚ := treeCpuList cs + treeGpuList cs

/-- The fully-aggregated entry `resolveStats` is expected to leave for a node. -/
def aggOf (t : SampleNode) : StatsData :=
  { cpu := treeCpu t, gpu := treeGpu t, total := treeTotal t, initialized := true }

mutual

/-- A node together with all its descendants (preorder). -/
def SampleNode.subnodes : SampleNode → List SampleNode
  | .mk c a g cs => .mk c a g cs :: subnodesList cs

def subnodesList : List SampleNode → List SampleNode
  | [] => []
  | c :: rest => c.subnodes ++ subnodesList rest

end

/-- All `cid`s occurring in a subtree. -/
def SampleNode.cids (t : SampleNode) : List Nat := t.subnodes.map SampleNode.cid

/-- All `cid`s occurring in a list of sibling subtrees. -/
def cidsList (cs : List SampleNode) : List Nat := (subnodesList cs).map SampleNode.cid

mutual

/-- Number of nodes of a sample tree. -/
def nodeCount : SampleNode → Nat
  | .mk _ _ _ cs => 1 + nodeCountList cs

def nodeCountList : List SampleNode → Nat
  | [] => 0
  | c :: rest => nodeCount c + nodeCountList rest

end

mutual

/-- A recursion budget sufficient for `resolveStatsFuel` on a subtree. -/
def fuelBound : SampleNode → Nat
  | .mk _ _ _ cs => 1 + fuelBoundList cs

def fuelBoundList : List SampleNode → Nat
  | [] => 1
  | c :: rest => 1 + fuelBound c + fuelBoundList rest

end

mutual

/-- `resolveStats` with an explicit recursion budget: one unit of fuel is spent
per call, and the recursion descends only into the strict subtrees listed in
`children`.  Used to express that the aggregation terminates on every finite
acyclic sample tree. -/
def resolveStatsFuel : Nat → SampleNode → Store → Option Store
  | 0, _, _ => none
  | fuel + 1, .mk cid a g cs, store =>
      let data0 := getStats store cid
      let data1 :=
        if data0.initialized ≠ true then
          { data0 with cpu := a, gpu := g, initialized := true }
        else data0
      let data2 := { data1 with cpu := a, gpu := g }
      let data3 := { data2 with total := data2.cpu + data2.gpu }
      resolveStatsChildrenFuel fuel cid cs (setStats store cid data3)

def resolveStatsChildrenFuel : Nat → Nat → List SampleNode → Store → Option Store
  | 0, _, _, _ => none
  | _ + 1, _, [], store => some store
  | fuel + 1, cid, child :: rest, store =>
      match resolveStatsFuel fuel child store with
      | none => none
      | some store1 =>
          let childData := getStats store1 child.cid
          let data := getStats store1 cid
          let data' := { data with
            cpu := data.cpu + childData.cpu,
            gpu := data.gpu + childData.gpu,
            total := data.total + childData.total }
          resolveStatsChildrenFuel fuel cid rest (setStats store1 cid data')

end

/-! ### Frame resolution, smoothing and display cycles -/

/-- `const EASE_FACTOR = 0.1` (Inspector.js line 13). -/
def EASE_FACTOR : ℚ := 0.1

/-- Modelled from the spec: `ease` is imported from `./ui/utils.js` (line 8),
which is not among the sources.  The spec (§4.3, §9) describes it as a standard
first-order low-pass / exponential-moving-average step that moves the previous
smoothed value a fraction of the way - controlled by the smoothing `factor` and
the elapsed `dt` - toward the new raw sample. -/
def ease (a b dt factor : ℚ) : ℚ := a + (b - a) * min 1 (dt * factor)

/-- One display cycle timer of `this.displayCycle` (lines 55-66). -/
structure CycleTimer where
  needsUpdate : Bool
  duration : ℚ
  time : ℚ
deriving DecidableEq, Repr

/-- `Inspector.updateCycle( cycle )` (lines 413-424), with the host-supplied
`this.nodeFrame.deltaTime` passed explicitly as `nodeDelta`. -/
def updateCycle (cycle : CycleTimer) (nodeDelta : ℚ) : CycleTimer :=
  let t := cycle.time + nodeDelta
  if cycle.duration ≤ t then { cycle with needsUpdate := true, time := 0 }
  else { cycle with time := t }

/-- Whether a single `updateCycle` call starting from `cycle` fires
(`cycle.time + dt >= cycle.duration`). -/
def cycleFires (cycle : CycleTimer) (nodeDelta : ℚ) : Bool :=
  cycle.duration ≤ cycle.time + nodeDelta

/-- Advance a cycle timer through a sequence of per-frame deltas, counting how
many of the calls fired. -/
def runCycle : CycleTimer → List ℚ → CycleTimer × Nat
  | c, [] => (c, 0)
  | c, dt :: rest =>
      let c' := updateCycle c dt
      let out := runCycle c' rest
      (out.1, (if cycleFires c dt then 1 else 0) + out.2)

/-- A frame record as produced by the host renderer and annotated by
`resolveFrame`; the computed fields default to `0` before resolution. -/
structure FrameRecord where
  frameId : Nat
  startTime : ℚ
  children : List SampleNode
  cpu : ℚ := 0
  gpu : ℚ := 0
  total : ℚ := 0
  deltaTime : ℚ := 0
  miscellaneous : ℚ := 0

/-- The inspector state touched by `resolveFrame`: the smoothed/raw deltas, the
stats store and the two display cycle timers. -/
structure InspectorState where
  deltaTime : ℚ
  softDeltaTime : ℚ
  statsData : Store
  textCycle : CycleTimer
  graphCycle : CycleTimer

/-- The state set up by the `Inspector` constructor (lines 43-66):
`deltaTime = 0`, `softDeltaTime = 0`, empty stats map, and the two display
cycles `text` (duration `.25`) and `graph` (duration `.05`), both with
`needsUpdate = false` and `time = 0`. -/
def initialState : InspectorState where
  deltaTime := 0
  softDeltaTime := 0
  statsData := []
  textCycle := { needsUpdate := false, duration := 0.25, time := 0 }
  graphCycle := { needsUpdate := false, duration := 0.05, time := 0 }

/-- The `for ( const stats of frame.children )` loop of `resolveFrame`
(lines 343-353): aggregate each top-level sample, then read its entry and add
it into the frame's running `cpu`/`gpu`/`total`. -/
def resolveFrameChildren : List SampleNode → Store → ℚ × ℚ × ℚ → Store × (ℚ × ℚ × ℚ)
  | [], store, acc => (store, acc)
  | stats :: rest, store, acc =>
      let store1 := resolveStats stats store
      let data := getStats store1 stats.cid
      resolveFrameChildren rest store1 (acc.1 + data.cpu, acc.2.1 + data.gpu, acc.2.2 + data.total)

/-- `Inspector.resolveFrame( frame )` (lines 333-399).  The lookup
`this.getFrameById( frame.frameId + 1 )` into the host's frame list (kept by
the external `RendererInspector` base class) is modelled by the `nextFrame`
argument, and the host-supplied `this.nodeFrame.deltaTime` by `nodeDelta`.
The UI pushes guarded by `needsUpdate` (`setText`, `updateText`,
`updateGraph`) are calls into external collaborators and do not change the
inspector state; both `needsUpdate` flags are set to `false` unconditionally
at the end.  Returns the new state together with the annotated frame. -/
def resolveFrame (s : InspectorState) (frame : FrameRecord) (nextFrame : Option FrameRecord)
    (nodeDelta : ℚ) : InspectorState × FrameRecord :=
  match nextFrame with
  | none => (s, frame)
  | some nf =>
      let res := resolveFrameChildren frame.children s.statsData (0, 0, 0)
      let ft := res.2.2.2
      let dt := nf.startTime - frame.startTime
      let misc0 := dt - ft
      let misc := if misc0 < 0 then 0 else misc0
      let soft0 := if s.softDeltaTime = 0 then dt else s.softDeltaTime
      let soft := ease soft0 dt nodeDelta EASE_FACTOR
      let text1 := updateCycle s.textCycle nodeDelta
      let graph1 := updateCycle s.graphCycle nodeDelta
      ( { deltaTime := dt, softDeltaTime := soft, statsData := res.1,
          textCycle := { text1 with needsUpdate := false },
          graphCycle := { graph1 with needsUpdate := false } },
        { frame with cpu := res.2.1, gpu := res.2.2.1, total := ft,
                     deltaTime := dt, miscellaneous := misc } )

/-- Every entry reachable in a stats store satisfies `total = cpu + gpu`
(the missing-key default `{}` satisfies it trivially). -/
def storeInv (s : Store) : Prop :=
  ∀ c : Nat, (getStats s c).total = (getStats s c).cpu + (getStats s c).gpu

/-! ### Canvas resource cache -/

/-- A scene-graph node as seen by `getCanvasDataByNode`: a stable `id` and the
human-readable label returned by `getName()` (empty when unnamed, matching the
falsy check `node.getName() || '(unnamed)'`). -/
structure NodeObj where
  id : Nat
  name : String
deriving DecidableEq, Repr

/-- Modelled from the spec: `splitCamelCase` is imported from `./ui/utils.js`
(line 8), which is not among the sources.  The spec (§4.5) describes the
derivation as splitting a camel-cased identifier; modelled as inserting a
space before every uppercase letter. -/
def splitCamelCase (s : String) : String :=
  String.mk (s.data.foldr
    (fun ch acc => if ch.isUpper then ' ' :: ch :: acc else ch :: acc) [])

/-- Modelled from the spec: `splitPath` is imported from `./ui/utils.js`
(line 8), which is not among the sources.  The spec (§4.5) says the label is
split into path segments and a leaf name; modelled as splitting on spaces with
the last segment as the leaf `name` and the rest as the `path`. -/
def splitPath (s : String) : String × String :=
  let sep := " "
  let leafDefault := ""
  let parts := s.splitOn sep
  (String.intercalate sep parts.dropLast, parts.getLastD leafDefault)

/-- The offscreen `CanvasTarget` configured on a cache miss: fixed 140x140
size and the live device pixel ratio (lines 268-270). -/
structure CanvasTargetRec where
  width : Nat
  height : Nat
  pixelRatio : ℚ
deriving DecidableEq, Repr

/-- The cached per-node bundle built by `getCanvasDataByNode` (lines 286-294).
The GPU-side objects (`NodeMaterial`, `QuadMesh`, the `renderOutput` node
graph) are external allocations; they are represented here by the data this
code configures on them: the quad's name `'Viewer - ' + name` and the canvas
target's size/pixel ratio. -/
structure CanvasData where
  id : Nat
  name : String
  path : String
  node : NodeObj
  quadName : String
  canvasTarget : CanvasTargetRec
deriving DecidableEq, Repr

/-- `this.canvasNodes : Map node -> CanvasData`, keyed by node identity. -/
abbrev CanvasStore := List (NodeObj × CanvasData)

/-- Lookup in `this.canvasNodes` (`undefined` on a miss). -/
def getCanvas : CanvasStore → NodeObj → Option CanvasData
  | [], _ => none
  | (k, v) :: rest, n => if k = n then some v else getCanvas rest n

/-- `Inspector.getCanvasDataByNode( node )` (lines 258-302): on a miss, derive
name and path from the node's label, configure a 140x140 canvas target at the
live `window.devicePixelRatio` (passed as `pixelRatio`), build the preview
quad, cache the bundle under the node, and return it; on a hit, return the
cached bundle unchanged.  Returns the bundle and the (possibly extended)
cache. -/
def getCanvasDataByNode (m : CanvasStore) (node : NodeObj) (pixelRatio : ℚ) :
    CanvasData × CanvasStore :=
  match getCanvas m node with
  | some canvasData => (canvasData, m)
  | none =>
      let label := if node.name = "" then "(unnamed)" else node.name
      let pn := splitPath (splitCamelCase label)
      let canvasData : CanvasData :=
        { id := node.id, name := pn.2, path := pn.1, node := node,
          quadName := "Viewer - " ++ pn.2,
          canvasTarget := { width := 140, height := 140, pixelRatio := pixelRatio } }
      (canvasData, (node, canvasData) :: m)

/-! ### Concrete sample inputs used by witnesses and counterexamples -/

/-- A small tree with pairwise-distinct cids: root `cid 0` (cpu 1, gpu 2) with
children `cid 1` (cpu 3, gpu 4) and `cid 2` (cpu 5, gpu 6). -/
def sampleDistinct : SampleNode :=
  .mk 0 1 2 [.mk 1 3 4 [], .mk 2 5 6 []]

/-- The first child of `sampleDistinct`. -/
def sampleChild1 : SampleNode := .mk 1 3 4 []

/-- A tree in which two sibling leaves share `cid 1`: root `cid 0` (cpu 0,
gpu 0) with children `cid 1` (cpu 1, gpu 0) and `cid 1` (cpu 2, gpu 0). -/
def sampleDup : SampleNode :=
  .mk 0 0 0 [.mk 1 1 0 [], .mk 1 2 0 []]

/-- The first child of `sampleDup`. -/
def sampleDupA : SampleNode := .mk 1 1 0 []

/-- Invariant of `this.canvasNodes`: every cached bundle records the node it
is keyed under. -/
def canvasInv (m : CanvasStore) : Prop :=
  ∀ (k : NodeObj) (cd : CanvasData), getCanvas m k = some cd → cd.node = k

/-! ### Basic store and tree lemmas -/

theorem getStats_setStats_self (s : Store) (c : Nat) (d : StatsData) :
    getStats (setStats s c d) c = d := by
  induction s with
  | nil => simp [setStats, getStats]
  | cons p rest ih =>
    obtain ⟨c', e⟩ := p
    by_cases h : c' = c
    · simp [setStats, h, getStats]
    · simp [setStats, h, getStats, ih]

theorem getStats_setStats_ne (s : Store) (c c' : Nat) (d : StatsData) (h : c' ≠ c) :
    getStats (setStats s c d) c' = getStats s c' := by
  have hcc : ¬ c = c' := by
    intro hh
    exact h hh.symm
  induction s with
  | nil =>
    simp only [setStats, getStats]
    rw [if_neg hcc]
  | cons p rest ih =>
    obtain ⟨ck, ev⟩ := p
    by_cases h' : ck = c
    · subst h'
      simp only [setStats, if_pos rfl, getStats]
      rw [if_neg hcc, if_neg hcc]
    · simp only [setStats, if_neg h', getStats]
      by_cases h2 : ck = c'
      · rw [if_pos h2, if_pos h2]
      · rw [if_neg h2, if_neg h2, ih]

theorem cids_mk (c : Nat) (a g : ℚ) (cs : List SampleNode) :
    (SampleNode.mk c a g cs).cids = c :: cidsList cs := rfl

theorem cidsList_cons (t : SampleNode) (rest : List SampleNode) :
    cidsList (t :: rest) = t.cids ++ cidsList rest := by
  simp [cidsList, subnodesList, SampleNode.cids]

theorem cid_mem_cids {n t : SampleNode} (h : n ∈ t.subnodes) : n.cid ∈ t.cids :=
  List.mem_map_of_mem SampleNode.cid h

theorem cid_mem_cidsList {n : SampleNode} {cs : List SampleNode}
    (h : n ∈ subnodesList cs) : n.cid ∈ cidsList cs :=
  List.mem_map_of_mem SampleNode.cid h

theorem treeTotalList_cons (c : SampleNode) (rest : List SampleNode) :
    treeTotalList (c :: rest) = treeTotal c + treeTotalList rest := by
  simp [treeTotalList, treeTotal, treeCpuList, treeGpuList]
  ring

/-! ### Keys outside a subtree are untouched by `resolveStats` -/

mutual

theorem resolveStats_getStats_notMem (t : SampleNode) (s : Store) (c : Nat)
    (h : c ∉ t.cids) : getStats (resolveStats t s) c = getStats s c := by
  match t with
  | .mk cid a g cs =>
    have hne : c ≠ cid := by
      intro e
      exact h (by simp [cids_mk, e])
    have hcs : c ∉ cidsList cs := by
      intro hm
      exact h (by simp [cids_mk, hm])
    rw [resolveStats]
    rw [resolveStatsChildren_getStats_notMem cid cs _ c hcs hne]
    exact getStats_setStats_ne _ _ _ _ hne

theorem resolveStatsChildren_getStats_notMem (cid : Nat) (cs : List SampleNode)
    (s : Store) (c : Nat) (hcs : c ∉ cidsList cs) (hne : c ≠ cid) :
    getStats (resolveStatsChildren cid cs s) c = getStats s c := by
  match cs with
  | [] => rw [resolveStatsChildren]
  | child :: rest =>
    have hchild : c ∉ child.cids := by
      intro hm
      exact hcs (by simp [cidsList_cons, hm])
    have hrest : c ∉ cidsList rest := by
      intro hm
      exact hcs (by simp [cidsList_cons, hm])
    rw [resolveStatsChildren]
    rw [resolveStatsChildren_getStats_notMem cid rest _ c hrest hne]
    rw [getStats_setStats_ne _ _ _ _ hne]
    exact resolveStats_getStats_notMem child s c hchild

end

/-! ### Main correctness of `resolveStats` on trees with pairwise-distinct cids -/

/-- Unfolding of `resolveStats` at a constructor: the entry for the root cid is
always overwritten with `⟨cpu, gpu, cpu + gpu, true⟩` before the child loop. -/
theorem resolveStats_mk (cid : Nat) (a g : ℚ) (cs : List SampleNode) (s : Store) :
    resolveStats (.mk cid a g cs) s
      = resolveStatsChildren cid cs
          (setStats s cid { cpu := a, gpu := g, total := a + g, initialized := true }) := by
  rw [resolveStats]
  by_cases hI : (getStats s cid).initialized = true <;> simp [hI]

theorem self_mem_subnodes (t : SampleNode) : t ∈ t.subnodes := by
  match t with
  | .mk c a g cs =>
    rw [SampleNode.subnodes]
    exact List.mem_cons_self _ _

mutual

theorem resolveStats_correct (t : SampleNode) (s : Store) (hnd : t.cids.Nodup) :
    ∀ n ∈ t.subnodes, getStats (resolveStats t s) n.cid = aggOf n := by
  match t with
  | .mk cid a g cs =>
    have hnd' : (cid :: cidsList cs).Nodup := by rwa [cids_mk] at hnd
    have hcid : cid ∉ cidsList cs := (List.nodup_cons.mp hnd').1
    have hndcs : (cidsList cs).Nodup := (List.nodup_cons.mp hnd').2
    rw [resolveStats_mk]
    have hget : getStats (setStats s cid { cpu := a, gpu := g, total := a + g, initialized := true })
        cid = { cpu := a, gpu := g, total := a + g, initialized := true } :=
      getStats_setStats_self _ _ _
    have hlist := resolveStatsChildren_correct cid cs
      (setStats s cid { cpu := a, gpu := g, total := a + g, initialized := true })
      { cpu := a, gpu := g, total := a + g, initialized := true } hndcs hcid hget
    intro n hn
    rw [SampleNode.subnodes] at hn
    rcases List.mem_cons.mp hn with hhead | htail
    · subst hhead
      rw [SampleNode.cid, hlist.1]
      simp only [aggOf, treeCpu, treeGpu, treeTotal, treeTotalList]
      congr 1
      ring
    · exact hlist.2 n htail

theorem resolveStatsChildren_correct (cid : Nat) (cs : List SampleNode) (s : Store)
    (d : StatsData) (hnd : (cidsList cs).Nodup) (hcid : cid ∉ cidsList cs)
    (hd : getStats s cid = d) :
    getStats (resolveStatsChildren cid cs s) cid
      = { cpu := d.cpu + treeCpuList cs, gpu := d.gpu + treeGpuList cs,
          total := d.total + treeTotalList cs, initialized := d.initialized }
    ∧ ∀ n ∈ subnodesList cs, getStats (resolveStatsChildren cid cs s) n.cid = aggOf n := by
  match cs with
  | [] =>
    constructor
    · rw [resolveStatsChildren, hd]
      simp [treeCpuList, treeGpuList, treeTotalList]
    · intro n hn
      rw [subnodesList] at hn
      exact absurd hn (List.not_mem_nil n)
  | child :: rest =>
    rw [cidsList_cons] at hnd hcid
    obtain ⟨hndc, hndr, hdisj⟩ := List.nodup_append.mp hnd
    have hcidc : cid ∉ child.cids := fun hx => hcid (List.mem_append_left _ hx)
    have hcidr : cid ∉ cidsList rest := fun hx => hcid (List.mem_append_right _ hx)
    have hchild := resolveStats_correct child s hndc
    have hchildData : getStats (resolveStats child s) child.cid = aggOf child :=
      hchild child (self_mem_subnodes child)
    have hdata : getStats (resolveStats child s) cid = d := by
      rw [resolveStats_getStats_notMem child s cid hcidc, hd]
    simp only [resolveStatsChildren]
    rw [hchildData, hdata]
    simp only [aggOf]
    have hih := resolveStatsChildren_correct cid rest
      (setStats (resolveStats child s) cid
        { cpu := d.cpu + treeCpu child, gpu := d.gpu + treeGpu child,
          total := d.total + treeTotal child, initialized := d.initialized })
      { cpu := d.cpu + treeCpu child, gpu := d.gpu + treeGpu child,
        total := d.total + treeTotal child, initialized := d.initialized }
      hndr hcidr (getStats_setStats_self _ _ _)
    constructor
    · rw [hih.1]
      simp only [treeCpuList, treeGpuList, treeTotalList_cons]
      congr 1 <;> first | rfl | ring
    · intro n hn
      rw [subnodesList] at hn
      rcases List.mem_append.mp hn with hleft | hright
      · have hnc : n.cid ∈ child.cids := cid_mem_cids hleft
        have hnr : n.cid ∉ cidsList rest := hdisj hnc
        have hne : n.cid ≠ cid := fun e => hcidc (e ▸ hnc)
        rw [resolveStatsChildren_getStats_notMem cid rest _ n.cid hnr hne]
        rw [getStats_setStats_ne _ _ _ _ hne]
        exact hchild n hleft
      · exact hih.2 n hright

end

/-! ### Order independence of the tree sums -/

theorem treeCpuList_eq_sum (cs : List SampleNode) : treeCpuList cs = (cs.map treeCpu).sum := by
  induction cs with
  | nil => simp [treeCpuList]
  | cons c rest ih => simp [treeCpuList, ih]

theorem treeGpuList_eq_sum (cs : List SampleNode) : treeGpuList cs = (cs.map treeGpu).sum := by
  induction cs with
  | nil => simp [treeGpuList]
  | cons c rest ih => simp [treeGpuList, ih]

theorem treeCpuList_perm {cs cs' : List SampleNode} (h : cs.Perm cs') :
    treeCpuList cs = treeCpuList cs' := by
  rw [treeCpuList_eq_sum, treeCpuList_eq_sum, (h.map treeCpu).sum_eq]

theorem treeGpuList_perm {cs cs' : List SampleNode} (h : cs.Perm cs') :
    treeGpuList cs = treeGpuList cs' := by
  rw [treeGpuList_eq_sum, treeGpuList_eq_sum, (h.map treeGpu).sum_eq]

/-- **C1 (amended)**: after `resolveStats` runs on a finite acyclic sample tree
whose cids are pairwise distinct, the aggregated `total` recorded for every
node's entry equals the node's own `cpu + gpu` plus the sum of its children's
aggregated totals (which carry all of the node's descendants), and this value
is independent of the order in which sibling subtrees are traversed. -/
theorem resolveStats_tree_sum (t : SampleNode) (s : Store) (hnd : t.cids.Nodup)
    (n : SampleNode) (hn : n ∈ t.subnodes) :
    (getStats (resolveStats t s) n.cid).total = (n.cpu + n.gpu) + treeTotalList n.children
    ∧ ∀ cs' : List SampleNode, n.children.Perm cs' →
        treeTotal (SampleNode.mk n.cid n.cpu n.gpu cs') = treeTotal n := by
  have h := resolveStats_correct t s hnd n hn
  match n with
  | .mk c a g cs =>
    constructor
    · rw [h]
      simp only [aggOf, SampleNode.cpu, SampleNode.gpu, SampleNode.children,
        treeTotal, treeCpu, treeGpu, treeTotalList]
      ring
    · intro cs' hp
      simp only [SampleNode.children] at hp
      simp only [SampleNode.cid, SampleNode.cpu, SampleNode.gpu,
        treeTotal, treeCpu, treeGpu]
      rw [treeCpuList_perm hp, treeGpuList_perm hp]

/-- Witness for C1 at `sampleDistinct` and its first child. -/
theorem resolveStats_tree_sum_witness :
    sampleDistinct.cids.Nodup
    ∧ sampleChild1 ∈ sampleDistinct.subnodes
    ∧ ((getStats (resolveStats sampleDistinct []) sampleChild1.cid).total
         = (sampleChild1.cpu + sampleChild1.gpu) + treeTotalList sampleChild1.children
       ∧ ∀ cs' : List SampleNode, sampleChild1.children.Perm cs' →
           treeTotal (SampleNode.mk sampleChild1.cid sampleChild1.cpu sampleChild1.gpu cs')
             = treeTotal sampleChild1) := by
  have h1 : sampleDistinct.cids.Nodup := by decide
  have h2 : sampleChild1 ∈ sampleDistinct.subnodes := by
    simp only [sampleDistinct, sampleChild1, SampleNode.subnodes, subnodesList,
      List.cons_append, List.nil_append]
    exact List.mem_cons_of_mem _ (List.mem_cons_self _ _)
  exact ⟨h1, h2, resolveStats_tree_sum sampleDistinct [] h1 sampleChild1 h2⟩

/-- Counterexample for C1 as stated: `sampleDup` is a finite acyclic sample
tree, its first child is one of its nodes, yet after `resolveStats` the entry
recorded under that node's cid holds total `2` (the second, last-visited
sibling's subtree total) while the node's own `cpu + gpu` plus its descendant
totals is `1`. -/
theorem resolveStats_tree_sum_cex :
    sampleDupA ∈ sampleDup.subnodes
    ∧ (getStats (resolveStats sampleDup []) sampleDupA.cid).total = 2
    ∧ (sampleDupA.cpu + sampleDupA.gpu) + treeTotalList sampleDupA.children = 1
    ∧ (2 : ℚ) ≠ 1 := by
  refine ⟨?_, ?_, ?_, by norm_num⟩
  · simp only [sampleDup, sampleDupA, SampleNode.subnodes, subnodesList,
      List.cons_append, List.nil_append]
    exact List.mem_cons_of_mem _ (List.mem_cons_self _ _)
  · norm_num [sampleDup, sampleDupA, resolveStats, resolveStatsChildren, getStats, setStats,
      SampleNode.cid]
  · norm_num [sampleDupA, SampleNode.cpu, SampleNode.gpu, SampleNode.children,
      treeTotalList, treeCpuList, treeGpuList]

/-! ### Shared-cid entries: the last-visited node wins, ancestors sum all -/

theorem resolveStatsChildren_append (cid : Nat) (cs₁ cs₂ : List SampleNode) (s : Store) :
    resolveStatsChildren cid (cs₁ ++ cs₂) s
      = resolveStatsChildren cid cs₂ (resolveStatsChildren cid cs₁ s) := by
  induction cs₁ generalizing s with
  | nil => simp only [List.nil_append, resolveStatsChildren]
  | cons child rest ih =>
    simp only [List.cons_append, resolveStatsChildren, List.append_eq]
    rw [ih]

theorem resolveStatsChildren_parent (cid : Nat) (cs : List SampleNode) (s : Store) (d : StatsData)
    (h1 : ∀ c ∈ cs, c.cids.Nodup) (h2 : ∀ c ∈ cs, cid ∉ c.cids)
    (hd : getStats s cid = d) :
    getStats (resolveStatsChildren cid cs s) cid
      = { cpu := d.cpu + treeCpuList cs, gpu := d.gpu + treeGpuList cs,
          total := d.total + treeTotalList cs, initialized := d.initialized } := by
  induction cs generalizing s d with
  | nil =>
    rw [resolveStatsChildren, hd]
    simp [treeCpuList, treeGpuList, treeTotalList]
  | cons child rest ih =>
    have hc : getStats (resolveStats child s) child.cid = aggOf child :=
      resolveStats_correct child s (h1 child (List.mem_cons_self _ _)) child
        (self_mem_subnodes child)
    have hdata : getStats (resolveStats child s) cid = d := by
      rw [resolveStats_getStats_notMem child s cid (h2 child (List.mem_cons_self _ _)), hd]
    simp only [resolveStatsChildren]
    rw [hc, hdata]
    simp only [aggOf]
    rw [ih _ _ (fun c hcm => h1 c (List.mem_cons_of_mem _ hcm))
      (fun c hcm => h2 c (List.mem_cons_of_mem _ hcm)) (getStats_setStats_self _ _ _)]
    simp only [treeCpuList, treeGpuList, treeTotalList_cons]
    congr 1 <;> first | rfl | ring

theorem statEntry_last_wins (p : Nat) (cs₁ cs₂ : List SampleNode) (x : SampleNode) (s : Store)
    (hx : x.cids.Nodup) (hafter : x.cid ∉ cidsList cs₂) (hp : x.cid ≠ p) :
    getStats (resolveStatsChildren p (cs₁ ++ x :: cs₂) s) x.cid = aggOf x := by
  rw [resolveStatsChildren_append]
  simp only [resolveStatsChildren]
  rw [resolveStatsChildren_getStats_notMem p cs₂ _ x.cid hafter hp]
  rw [getStats_setStats_ne _ _ _ _ hp]
  exact resolveStats_correct x _ hx x (self_mem_subnodes x)

/-- **C5 (amended)**: nodes that share a `cid` within one frame share a single
`StatEntry`, but the entry does not accumulate their costs: every visit
overwrites it with that invocation's own subtree aggregate, so after
aggregation it holds the last-visited invocation's values, while the parent's
entry still receives every invocation's contribution. -/
theorem statEntry_shared_overwrite (p : Nat) (a g : ℚ) (cs₁ cs₂ : List SampleNode)
    (x : SampleNode) (s : Store)
    (hx : x.cids.Nodup) (hafter : x.cid ∉ cidsList cs₂) (hp : x.cid ≠ p)
    (hall : ∀ c ∈ cs₁ ++ x :: cs₂, c.cids.Nodup)
    (hpc : ∀ c ∈ cs₁ ++ x :: cs₂, p ∉ c.cids) :
    getStats (resolveStats (.mk p a g (cs₁ ++ x :: cs₂)) s) x.cid = aggOf x
    ∧ (getStats (resolveStats (.mk p a g (cs₁ ++ x :: cs₂)) s) p).total
        = treeTotal (.mk p a g (cs₁ ++ x :: cs₂)) := by
  rw [resolveStats_mk]
  constructor
  · exact statEntry_last_wins p cs₁ cs₂ x _ hx hafter hp
  · rw [resolveStatsChildren_parent p _ _ _ hall hpc (getStats_setStats_self _ _ _)]
    simp only [treeTotal, treeCpu, treeGpu, treeTotalList]
    ring

/-- Witness for C5 (amended) at `sampleDup`: the shared entry `cid 1` ends as
the second sibling's aggregate and the root still sums both siblings. -/
theorem statEntry_shared_overwrite_witness :
    ((SampleNode.mk 1 2 0 [] : SampleNode).cids.Nodup
      ∧ (SampleNode.mk 1 2 0 [] : SampleNode).cid ∉ cidsList []
      ∧ (SampleNode.mk 1 2 0 [] : SampleNode).cid ≠ 0
      ∧ (∀ c ∈ [sampleDupA] ++ (SampleNode.mk 1 2 0 [] : SampleNode) :: [], c.cids.Nodup)
      ∧ (∀ c ∈ [sampleDupA] ++ (SampleNode.mk 1 2 0 [] : SampleNode) :: [], 0 ∉ c.cids))
    ∧ (getStats (resolveStats (.mk 0 0 0 ([sampleDupA] ++ (SampleNode.mk 1 2 0 [] : SampleNode) :: [])) [])
          (SampleNode.mk 1 2 0 [] : SampleNode).cid = aggOf (SampleNode.mk 1 2 0 [])
       ∧ (getStats (resolveStats (.mk 0 0 0 ([sampleDupA] ++ (SampleNode.mk 1 2 0 [] : SampleNode) :: [])) []) 0).total
           = treeTotal (.mk 0 0 0 ([sampleDupA] ++ (SampleNode.mk 1 2 0 [] : SampleNode) :: []))) := by
  have h1 : (SampleNode.mk 1 2 0 [] : SampleNode).cids.Nodup := by decide
  have h2 : (SampleNode.mk 1 2 0 [] : SampleNode).cid ∉ cidsList [] := by decide
  have h3 : (SampleNode.mk 1 2 0 [] : SampleNode).cid ≠ 0 := by decide
  have h4 : ∀ c ∈ [sampleDupA] ++ (SampleNode.mk 1 2 0 [] : SampleNode) :: [], c.cids.Nodup := by
    decide
  have h5 : ∀ c ∈ [sampleDupA] ++ (SampleNode.mk 1 2 0 [] : SampleNode) :: [], 0 ∉ c.cids := by
    decide
  exact ⟨⟨h1, h2, h3, h4, h5⟩,
    statEntry_shared_overwrite 0 0 0 [sampleDupA] [] (SampleNode.mk 1 2 0 []) [] h1 h2 h3 h4 h5⟩

/-- Counterexample for C5 as stated: in `sampleDup` the two children share
`cid 1` with combined cost `1 + 2 = 3`, but after aggregation the entry under
`cid 1` holds total `2` - only the last-visited node's value. -/
theorem statEntry_accumulate_cex :
    (getStats (resolveStats sampleDup []) 1).total = 2
    ∧ treeTotal sampleDupA + treeTotal (SampleNode.mk 1 2 0 []) = 3
    ∧ (2 : ℚ) ≠ 3 := by
  refine ⟨?_, ?_, by norm_num⟩
  · norm_num [sampleDup, resolveStats, resolveStatsChildren, getStats, setStats, SampleNode.cid]
  · norm_num [sampleDupA, treeTotal, treeCpu, treeGpu, treeCpuList, treeGpuList]

/-! ### Termination of the aggregation -/

mutual

theorem resolveStatsFuel_eq (t : SampleNode) (s : Store) (fuel : Nat)
    (h : fuelBound t ≤ fuel) :
    resolveStatsFuel fuel t s = some (resolveStats t s) := by
  match t, fuel with
  | .mk cid a g cs, 0 =>
    rw [fuelBound] at h
    exact absurd h (by omega)
  | .mk cid a g cs, fuel + 1 =>
    rw [fuelBound] at h
    simp only [resolveStatsFuel, resolveStats]
    exact resolveStatsChildrenFuel_eq cid cs _ fuel (by omega)

theorem resolveStatsChildrenFuel_eq (cid : Nat) (cs : List SampleNode) (s : Store) (fuel : Nat)
    (h : fuelBoundList cs ≤ fuel) :
    resolveStatsChildrenFuel fuel cid cs s = some (resolveStatsChildren cid cs s) := by
  match cs, fuel with
  | [], 0 =>
    rw [fuelBoundList] at h
    exact absurd h (by omega)
  | [], fuel + 1 =>
    rw [resolveStatsChildrenFuel, resolveStatsChildren]
  | child :: rest, 0 =>
    rw [fuelBoundList] at h
    exact absurd h (by omega)
  | child :: rest, fuel + 1 =>
    rw [fuelBoundList] at h
    simp only [resolveStatsChildrenFuel, resolveStatsChildren]
    rw [resolveStatsFuel_eq child s fuel (by omega)]
    exact resolveStatsChildrenFuel_eq cid rest _ fuel (by omega)

end

/-- **C10**: `resolveStats` is total on finite acyclic sample trees: the
fuel-instrumented variant, which spends one unit of recursion budget per call
and descends only into the strict subtrees in `children`, terminates with the
same result whenever the budget is at least `fuelBound t` (a bound computed
from the tree alone). -/
theorem resolveStats_terminates (t : SampleNode) (s : Store) (fuel : Nat)
    (h : fuelBound t ≤ fuel) :
    resolveStatsFuel fuel t s = some (resolveStats t s) :=
  resolveStatsFuel_eq t s fuel h

/-- Witness for C10 at `sampleDistinct` with budget 10. -/
theorem resolveStats_terminates_witness :
    fuelBound sampleDistinct ≤ 10
    ∧ resolveStatsFuel 10 sampleDistinct [] = some (resolveStats sampleDistinct []) := by
  have h : fuelBound sampleDistinct ≤ 10 := by decide
  exact ⟨h, resolveStats_terminates sampleDistinct [] 10 h⟩

/-! ### The `total = cpu + gpu` invariant -/

theorem setStats_inv {s : Store} (h : storeInv s) {d : StatsData}
    (hd : d.total = d.cpu + d.gpu) (c : Nat) : storeInv (setStats s c d) := by
  intro c'
  by_cases hc : c' = c
  · subst hc
    rw [getStats_setStats_self]
    exact hd
  · rw [getStats_setStats_ne _ _ _ _ hc]
    exact h c'

mutual

theorem resolveStats_inv (t : SampleNode) (s : Store) (h : storeInv s) :
    storeInv (resolveStats t s) := by
  match t with
  | .mk cid a g cs =>
    rw [resolveStats_mk]
    exact resolveStatsChildren_inv cid cs _ (setStats_inv h rfl cid)

theorem resolveStatsChildren_inv (cid : Nat) (cs : List SampleNode) (s : Store)
    (h : storeInv s) : storeInv (resolveStatsChildren cid cs s) := by
  match cs with
  | [] =>
    rw [resolveStatsChildren]
    exact h
  | child :: rest =>
    simp only [resolveStatsChildren]
    have h1 : storeInv (resolveStats child s) := resolveStats_inv child s h
    refine resolveStatsChildren_inv cid rest _ (setStats_inv h1 ?_ cid)
    have ha := h1 cid
    have hb := h1 child.cid
    simp only []
    rw [ha, hb]
    ring

end

theorem resolveFrameChildren_spec (cs : List SampleNode) (store : Store) (acc : ℚ × ℚ × ℚ)
    (h : storeInv store) (hacc : acc.2.2 = acc.1 + acc.2.1) :
    storeInv (resolveFrameChildren cs store acc).1
    ∧ (resolveFrameChildren cs store acc).2.2.2
        = (resolveFrameChildren cs store acc).2.1 + (resolveFrameChildren cs store acc).2.2.1 := by
  induction cs generalizing store acc with
  | nil =>
    rw [resolveFrameChildren]
    exact ⟨h, hacc⟩
  | cons stats rest ih =>
    simp only [resolveFrameChildren]
    have h1 : storeInv (resolveStats stats store) := resolveStats_inv stats store h
    refine ih _ _ h1 ?_
    have ht := h1 stats.cid
    simp only []
    rw [hacc, ht]
    ring

/-- **C2**: after resolution of a frame whose next frame is present,
`total = cpu + gpu` holds exactly (in the exact-rational model of JS numbers)
for every entry of the stats store, and `frame.total = frame.cpu + frame.gpu`
holds exactly for the annotated frame record itself. -/
theorem resolveFrame_exact (s : InspectorState) (frame nf : FrameRecord) (nodeDelta : ℚ)
    (hInv : storeInv s.statsData) :
    (resolveFrame s frame (some nf) nodeDelta).2.total
      = (resolveFrame s frame (some nf) nodeDelta).2.cpu
        + (resolveFrame s frame (some nf) nodeDelta).2.gpu
    ∧ storeInv (resolveFrame s frame (some nf) nodeDelta).1.statsData := by
  have h := resolveFrameChildren_spec frame.children s.statsData (0, 0, 0) hInv (by norm_num)
  simp only [resolveFrame]
  exact ⟨h.2, h.1⟩

/-- Witness for C2: a frame with the `sampleDistinct` tree, resolved from the
initial (empty) store against a next frame starting at `20`. -/
theorem resolveFrame_exact_witness :
    storeInv initialState.statsData
    ∧ ((resolveFrame initialState
          { frameId := 0, startTime := 0, children := [sampleDistinct] }
          (some { frameId := 1, startTime := 20, children := [] }) 1).2.total
        = (resolveFrame initialState
            { frameId := 0, startTime := 0, children := [sampleDistinct] }
            (some { frameId := 1, startTime := 20, children := [] }) 1).2.cpu
          + (resolveFrame initialState
              { frameId := 0, startTime := 0, children := [sampleDistinct] }
              (some { frameId := 1, startTime := 20, children := [] }) 1).2.gpu
       ∧ storeInv (resolveFrame initialState
            { frameId := 0, startTime := 0, children := [sampleDistinct] }
            (some { frameId := 1, startTime := 20, children := [] }) 1).1.statsData) := by
  have h : storeInv initialState.statsData := by
    intro c
    norm_num [initialState, getStats]
  exact ⟨h, resolveFrame_exact initialState _ _ 1 h⟩

/-! ### Delta time and miscellaneous clamping -/

/-- **C3**: for a frame whose next frame is present, `resolveFrame` sets
`deltaTime = nextFrame.startTime - frame.startTime` and
`miscellaneous = deltaTime - total` clamped below at `0`; consequently
`miscellaneous` is never negative, and a frame whose aggregated total exceeds
its `deltaTime` ends with `miscellaneous = 0`. -/
theorem resolveFrame_delta_misc (s : InspectorState) (frame nf : FrameRecord) (nodeDelta : ℚ) :
    (resolveFrame s frame (some nf) nodeDelta).2.deltaTime = nf.startTime - frame.startTime
    ∧ 0 ≤ (resolveFrame s frame (some nf) nodeDelta).2.miscellaneous
    ∧ ((resolveFrame s frame (some nf) nodeDelta).2.total
          ≤ (resolveFrame s frame (some nf) nodeDelta).2.deltaTime →
        (resolveFrame s frame (some nf) nodeDelta).2.miscellaneous
          = (resolveFrame s frame (some nf) nodeDelta).2.deltaTime
            - (resolveFrame s frame (some nf) nodeDelta).2.total)
    ∧ ((resolveFrame s frame (some nf) nodeDelta).2.deltaTime
          < (resolveFrame s frame (some nf) nodeDelta).2.total →
        (resolveFrame s frame (some nf) nodeDelta).2.miscellaneous = 0) := by
  simp only [resolveFrame]
  refine ⟨trivial, ?_, ?_, ?_⟩
  · by_cases hlt :
      nf.startTime - frame.startTime
        - (resolveFrameChildren frame.children s.statsData (0, 0, 0)).2.2.2 < 0
    · rw [if_pos hlt]
    · rw [if_neg hlt]
      linarith [not_lt.mp hlt]
  · intro hle
    rw [if_neg (by linarith)]
  · intro hgt
    rw [if_pos (by linarith)]

/-- Witness for C3 parts with hypotheses: with one child of total `25` and a
next frame only `20` later, the clamp yields `miscellaneous = 0`. -/
theorem resolveFrame_delta_misc_witness :
    ((resolveFrame initialState
        { frameId := 0, startTime := 0, children := [SampleNode.mk 0 15 10 []] }
        (some { frameId := 1, startTime := 20, children := [] }) 1).2.deltaTime
      < (resolveFrame initialState
          { frameId := 0, startTime := 0, children := [SampleNode.mk 0 15 10 []] }
          (some { frameId := 1, startTime := 20, children := [] }) 1).2.total)
    ∧ (resolveFrame initialState
        { frameId := 0, startTime := 0, children := [SampleNode.mk 0 15 10 []] }
        (some { frameId := 1, startTime := 20, children := [] }) 1).2.miscellaneous = 0 := by
  have hlt :
      (resolveFrame initialState
        { frameId := 0, startTime := 0, children := [SampleNode.mk 0 15 10 []] }
        (some { frameId := 1, startTime := 20, children := [] }) 1).2.deltaTime
      < (resolveFrame initialState
          { frameId := 0, startTime := 0, children := [SampleNode.mk 0 15 10 []] }
          (some { frameId := 1, startTime := 20, children := [] }) 1).2.total := by
    norm_num [resolveFrame, resolveFrameChildren, resolveStats, resolveStatsChildren,
      getStats, setStats, SampleNode.cid, initialState]
  exact ⟨hlt,
    ((resolveFrame_delta_misc initialState
      { frameId := 0, startTime := 0, children := [SampleNode.mk 0 15 10 []] }
      { frameId := 1, startTime := 20, children := [] } 1).2.2.2) hlt⟩

/-! ### Smoothed delta bootstrap -/

/-- **C7**: when the stored smoothed delta is `0` before a frame is resolved,
the smoothed value produced by that resolution equals the frame's raw
`deltaTime` exactly. -/
theorem resolveFrame_bootstrap (s : InspectorState) (frame nf : FrameRecord) (nodeDelta : ℚ)
    (h0 : s.softDeltaTime = 0) :
    (resolveFrame s frame (some nf) nodeDelta).1.softDeltaTime
      = (resolveFrame s frame (some nf) nodeDelta).2.deltaTime := by
  simp only [resolveFrame, h0, if_pos, ease]
  ring

/-- Witness for C7 from the freshly-constructed state. -/
theorem resolveFrame_bootstrap_witness :
    initialState.softDeltaTime = 0
    ∧ (resolveFrame initialState
        { frameId := 0, startTime := 0, children := [] }
        (some { frameId := 1, startTime := 20, children := [] }) 1).1.softDeltaTime
      = (resolveFrame initialState
          { frameId := 0, startTime := 0, children := [] }
          (some { frameId := 1, startTime := 20, children := [] }) 1).2.deltaTime :=
  ⟨rfl, resolveFrame_bootstrap initialState _ _ 1 rfl⟩

/-! ### The `needsUpdate` flags never survive a `resolveFrame` return -/

/-- **C9**: `needsUpdate = false` for both display-cycle timers is an
invariant at the public interface: it holds after construction, and at every
return of `resolveFrame` - the resolved path clears both flags unconditionally
at the end, and the early return (next frame absent) leaves them untouched, so
a pending refresh signal never survives across frames. -/
theorem needsUpdate_invariant (s : InspectorState) (frame : FrameRecord)
    (nextFrame : Option FrameRecord) (nodeDelta : ℚ)
    (ht : s.textCycle.needsUpdate = false) (hg : s.graphCycle.needsUpdate = false) :
    (initialState.textCycle.needsUpdate = false
      ∧ initialState.graphCycle.needsUpdate = false)
    ∧ (resolveFrame s frame nextFrame nodeDelta).1.textCycle.needsUpdate = false
    ∧ (resolveFrame s frame nextFrame nodeDelta).1.graphCycle.needsUpdate = false := by
  refine ⟨⟨rfl, rfl⟩, ?_⟩
  cases nextFrame with
  | none =>
    rw [resolveFrame]
    exact ⟨ht, hg⟩
  | some nf =>
    rw [resolveFrame]
    exact ⟨rfl, rfl⟩

/-- Witness for C9 on the early-return path from the initial state. -/
theorem needsUpdate_invariant_witness :
    (initialState.textCycle.needsUpdate = false
      ∧ initialState.graphCycle.needsUpdate = false)
    ∧ ((initialState.textCycle.needsUpdate = false
        ∧ initialState.graphCycle.needsUpdate = false)
      ∧ (resolveFrame initialState { frameId := 5, startTime := 0, children := [] } none 1).1.textCycle.needsUpdate = false
      ∧ (resolveFrame initialState { frameId := 5, startTime := 0, children := [] } none 1).1.graphCycle.needsUpdate = false) :=
  ⟨⟨rfl, rfl⟩,
    needsUpdate_invariant initialState { frameId := 5, startTime := 0, children := [] } none 1 rfl rfl⟩

/-! ### Cycle timer behaviour -/

theorem runCycle_no_fire (b : Bool) (d s : ℚ) (deltas : List ℚ)
    (hnn : ∀ x ∈ deltas, 0 ≤ x) (hlt : s + deltas.sum < d) :
    runCycle ⟨b, d, s⟩ deltas = (⟨b, d, s + deltas.sum⟩, 0) := by
  induction deltas generalizing s with
  | nil => simp [runCycle]
  | cons dt rest ih =>
    have hsr : 0 ≤ rest.sum :=
      List.sum_nonneg (fun x hx => hnn x (List.mem_cons_of_mem _ hx))
    have hdt : 0 ≤ dt := hnn dt (List.mem_cons_self _ _)
    have hsum : (dt :: rest).sum = dt + rest.sum := List.sum_cons
    have hlt2 : ¬ d ≤ s + dt := by
      rw [hsum] at hlt
      push_neg
      linarith
    have ihres := ih (s + dt) (fun x hx => hnn x (List.mem_cons_of_mem _ hx))
      (by rw [hsum] at hlt; linarith)
    have hfires : cycleFires ⟨b, d, s⟩ dt = false := by
      simp [cycleFires, hlt2]
    simp only [runCycle, updateCycle]
    rw [if_neg hlt2, ihres, hfires]
    simp [hsum]
    ring

theorem runCycle_exact_once (b : Bool) (d s : ℚ) (deltas : List ℚ)
    (hnn : ∀ x ∈ deltas, 0 ≤ x) (hd : 0 < d) (hs0 : 0 ≤ s) (hsd : s < d)
    (hsum : s + deltas.sum = d) :
    (runCycle ⟨b, d, s⟩ deltas).2 = 1 ∧ (runCycle ⟨b, d, s⟩ deltas).1.time = 0 := by
  induction deltas generalizing s b with
  | nil =>
    exfalso
    simp only [List.sum_nil, add_zero] at hsum
    exact absurd hsum (ne_of_lt hsd)
  | cons dt rest ih =>
    have hdt : 0 ≤ dt := hnn dt (List.mem_cons_self _ _)
    have hsr : 0 ≤ rest.sum :=
      List.sum_nonneg (fun x hx => hnn x (List.mem_cons_of_mem _ hx))
    have hsum' : (s + dt) + rest.sum = d := by
      rw [List.sum_cons] at hsum
      linarith
    by_cases hfire : d ≤ s + dt
    · have heq : s + dt = d := by linarith
      have hr0 : rest.sum = 0 := by linarith
      have hfires : cycleFires ⟨b, d, s⟩ dt = true := by
        simp [cycleFires, hfire]
      simp only [runCycle, updateCycle]
      rw [if_pos hfire, hfires]
      rw [runCycle_no_fire true d 0 rest (fun x hx => hnn x (List.mem_cons_of_mem _ hx))
        (by rw [hr0]; linarith)]
      simp [hr0]
    · have hfires : cycleFires ⟨b, d, s⟩ dt = false := by
        simp [cycleFires, hfire]
      simp only [runCycle, updateCycle]
      rw [if_neg hfire, hfires]
      have hout := ih b (s + dt) (fun x hx => hnn x (List.mem_cons_of_mem _ hx))
        (by linarith) (by push_neg at hfire; linarith) hsum'
      simpa using hout

/-- **C4**: a cycle timer of duration `d > 0` advanced by nonnegative time
deltas fires (sets `needsUpdate`) exactly when the accumulated time reaches
`>= d`, resetting the accumulated time to exactly `0` on firing; hence a
sequence of deltas summing exactly to `d` fires exactly once and ends with
`time = 0 < d`, and a sequence summing to less than `d` never fires. -/
theorem updateCycle_spec (d : ℚ) (deltas : List ℚ) (hd : 0 < d)
    (hnn : ∀ x ∈ deltas, 0 ≤ x) :
    (∀ (c : CycleTimer) (dt : ℚ), cycleFires c dt = true →
        (updateCycle c dt).needsUpdate = true ∧ (updateCycle c dt).time = 0)
    ∧ (∀ (c : CycleTimer) (dt : ℚ), cycleFires c dt = false →
        (updateCycle c dt).needsUpdate = c.needsUpdate
          ∧ (updateCycle c dt).time = c.time + dt)
    ∧ (deltas.sum = d →
        (runCycle ⟨false, d, 0⟩ deltas).2 = 1
          ∧ (runCycle ⟨false, d, 0⟩ deltas).1.time = 0
          ∧ (runCycle ⟨false, d, 0⟩ deltas).1.time < d)
    ∧ (deltas.sum < d → (runCycle ⟨false, d, 0⟩ deltas).2 = 0) := by
  refine ⟨?_, ?_, ?_, ?_⟩
  · intro c dt hf
    have hle : c.duration ≤ c.time + dt := by simpa [cycleFires] using hf
    simp [updateCycle, hle]
  · intro c dt hf
    have hlt : ¬ c.duration ≤ c.time + dt := by simpa [cycleFires] using hf
    simp [updateCycle, hlt]
  · intro hsum
    have h := runCycle_exact_once false d 0 deltas hnn hd le_rfl hd (by linarith)
    exact ⟨h.1, h.2, by rw [h.2]; exact hd⟩
  · intro hsum
    rw [runCycle_no_fire false d 0 deltas hnn (by linarith)]

/-- Witness for C4: duration `1/4` with deltas `[1/10, 3/20]` summing exactly
to `1/4` fires exactly once. -/
theorem updateCycle_spec_witness :
    ((0 : ℚ) < 1/4 ∧ ∀ x ∈ [(1/10 : ℚ), 3/20], 0 ≤ x)
    ∧ (([(1/10 : ℚ), 3/20].sum = 1/4 →
        (runCycle ⟨false, 1/4, 0⟩ [(1/10 : ℚ), 3/20]).2 = 1
          ∧ (runCycle ⟨false, 1/4, 0⟩ [(1/10 : ℚ), 3/20]).1.time = 0
          ∧ (runCycle ⟨false, 1/4, 0⟩ [(1/10 : ℚ), 3/20]).1.time < 1/4)) := by
  have hd : (0 : ℚ) < 1/4 := by norm_num
  have hnn : ∀ x ∈ [(1/10 : ℚ), 3/20], 0 ≤ x := by
    intro x hx
    simp at hx
    rcases hx with h | h <;> rw [h] <;> norm_num
  exact ⟨⟨hd, hnn⟩, (updateCycle_spec (1/4) [(1/10 : ℚ), 3/20] hd hnn).2.2.1⟩

/-! ### Display cycle configuration -/

/-- Counterexample for C6 as stated: the constructor configures the text
cycle with duration `0.25` and the graph cycle with duration `0.05`, so the
text timer's duration is not shorter than the graph timer's. -/
theorem displayCycle_text_not_shorter :
    initialState.textCycle.duration = 0.25
    ∧ initialState.graphCycle.duration = 0.05
    ∧ ¬ initialState.textCycle.duration < initialState.graphCycle.duration := by
  norm_num [initialState]

/-- **C6 (amended)**: the graph-redraw cadence timer is configured with a
shorter duration (`0.05`) than the numeric-text cadence timer (`0.25`), so
the graph redraw fires at least as often and the text refresh is the more
throttled of the two. -/
theorem displayCycle_graph_shorter :
    initialState.graphCycle.duration = 0.05
    ∧ initialState.textCycle.duration = 0.25
    ∧ initialState.graphCycle.duration < initialState.textCycle.duration := by
  norm_num [initialState]

/-! ### Canvas resource cache -/

theorem getCanvas_after (m : CanvasStore) (n : NodeObj) (r : ℚ) :
    getCanvas (getCanvasDataByNode m n r).2 n = some (getCanvasDataByNode m n r).1 := by
  unfold getCanvasDataByNode
  cases hc : getCanvas m n with
  | none => simp [getCanvas]
  | some cd => simp [hc]

theorem getCanvasDataByNode_node (m : CanvasStore) (n : NodeObj) (r : ℚ)
    (hm : canvasInv m) : (getCanvasDataByNode m n r).1.node = n := by
  unfold getCanvasDataByNode
  cases hc : getCanvas m n with
  | none => simp
  | some cd => simp [hm n cd hc]

/-- **C8**: a second `getCanvasDataByNode` call with the same node returns
the identical cached bundle and leaves the cache unchanged (no re-derivation,
no new allocation), and calls with distinct nodes never return a shared
bundle. -/
theorem getCanvasDataByNode_cached (m : CanvasStore) (n n' : NodeObj) (r r' r'' : ℚ)
    (hm : canvasInv m) (hne : n' ≠ n) :
    getCanvasDataByNode (getCanvasDataByNode m n r).2 n r'
      = ((getCanvasDataByNode m n r).1, (getCanvasDataByNode m n r).2)
    ∧ (getCanvasDataByNode m n r).1 ≠ (getCanvasDataByNode m n' r'').1 := by
  constructor
  · rw [getCanvasDataByNode, getCanvas_after m n r]
  · intro he
    have h1 : (getCanvasDataByNode m n r).1.node = n := getCanvasDataByNode_node m n r hm
    have h2 : (getCanvasDataByNode m n' r'').1.node = n' :=
      getCanvasDataByNode_node m n' r'' hm
    rw [he, h2] at h1
    exact hne h1

/-- Witness for C8 with an empty cache and two distinct nodes. -/
theorem getCanvasDataByNode_cached_witness :
    (canvasInv [] ∧ ({ id := 2, name := "roughnessNode" } : NodeObj) ≠ { id := 1, name := "colorNode" })
    ∧ (getCanvasDataByNode (getCanvasDataByNode [] { id := 1, name := "colorNode" } 2).2
          { id := 1, name := "colorNode" } 2
        = ((getCanvasDataByNode [] { id := 1, name := "colorNode" } 2).1,
           (getCanvasDataByNode [] { id := 1, name := "colorNode" } 2).2)
      ∧ (getCanvasDataByNode [] { id := 1, name := "colorNode" } 2).1
          ≠ (getCanvasDataByNode [] { id := 2, name := "roughnessNode" } 2).1) := by
  have hm : canvasInv [] := by
    intro k cd h
    simp [getCanvas] at h
  have hne : ({ id := 2, name := "roughnessNode" } : NodeObj) ≠ { id := 1, name := "colorNode" } := by
    decide
  exact ⟨⟨hm, hne⟩,
    getCanvasDataByNode_cached [] { id := 1, name := "colorNode" }
      { id := 2, name := "roughnessNode" } 2 2 2 hm hne⟩

end Inspector
